import Mathlib

/-!
Verification of the llmwrap pipeline (src/main.rs): a shallow embedding of the
pure logic of the program — the JSON response extractor `extract_text`, the
command sanitizer `sanitize_command`, the confirmation decision of
`confirm_run`, the request builder of `fetch_command`, and the early control
flow of `main` — together with theorems settling the specification claims.

Strings are modelled through their character lists; Rust `str::trim`,
`str::trim_matches`, `str::lines` and `String::join` are embedded explicitly.
-/

/-- Rust `char::is_whitespace`: the Unicode White_Space property.
Embedded by the explicit code-point list. -/
def rustIsWhitespace (c : Char) : Bool :=
  let n := c.toNat
  n == 0x09 || n == 0x0A || n == 0x0B || n == 0x0C || n == 0x0D || n == 0x20 ||
  n == 0x85 || n == 0xA0 || n == 0x1680 ||
  (0x2000 ≤ n && n ≤ 0x200A) || n == 0x2028 || n == 0x2029 ||
  n == 0x202F || n == 0x205F || n == 0x3000

/-- Strip every leading and every trailing character satisfying `p`.
This is the common core of Rust `str::trim` (with `p` = whitespace) and
`str::trim_matches` with a `char` pattern (with `p` = equality to that char):
both strip matching characters repeatedly from both ends. -/
def trimEnds (p : Char → Bool) (l : List Char) : List Char :=
  ((l.dropWhile p).reverse.dropWhile p).reverse

/-- Rust `str::trim` on a character list. -/
def rustTrimList (l : List Char) : List Char :=
  trimEnds rustIsWhitespace l

/-- Rust `str::trim_matches(c)` on a character list: strips every leading and
trailing occurrence of `c`. -/
def trimMatchesList (c : Char) (l : List Char) : List Char :=
  trimEnds (fun a => a == c) l

/-- Rust `str::trim` on a `String`. -/
def rustTrim (s : String) : String :=
  ⟨rustTrimList s.data⟩

/-- If the segment before the first newline ends in a carriage return, drop it:
Rust `str::lines` treats a bare `\r\n` pair as a single line terminator. -/
def stripTrailingCR (l : List Char) : List Char :=
  if l.getLast? = some '\r' then l.dropLast else l

/-- Rust `raw.lines().next().unwrap_or(raw)`: the text before the first
newline, with a `\r` belonging to a `\r\n` terminator removed; when the text
has no newline, `lines` yields the whole text (the iterator is empty exactly
when the text is empty, and `unwrap_or` then restores the empty text). -/
def firstLineList (l : List Char) : List Char :=
  if '\n' ∈ l then stripTrailingCR (l.takeWhile (fun c => c ≠ '\n')) else l

/-- `sanitize_command` from src/main.rs on a character list:
`raw.lines().next().unwrap_or(raw).trim().trim_matches('`').trim()`. -/
def sanitizeList (l : List Char) : List Char :=
  rustTrimList (trimMatchesList ('`') (rustTrimList (firstLineList l)))

/-- `sanitize_command` from src/main.rs. -/
def sanitize_command (raw : String) : String :=
  ⟨sanitizeList raw.data⟩

/-- `serde_json::Value`: an untyped JSON tree. The numeric payload is kept
abstract as an integer index (numbers are never consulted by `extract_text`:
`as_str`, `as_array` and `as_object` all fail on them, which is all the
program observes). -/
inductive Json where
  | null : Json
  | bool (b : Bool) : Json
  | num (n : Int) : Json
  | str (s : String) : Json
  | arr (items : List Json) : Json
  | obj (fields : List (String × Json)) : Json

/-- Key lookup in an object's field list (`serde_json::Map::get`; parsed maps
carry each key at most once, so first-match lookup is the map lookup). -/
def Json.lookupField : List (String × Json) → String → Option Json
  | [], _ => none
  | (k, v) :: rest, key => if k == key then some v else Json.lookupField rest key

/-- `Value::get(key)`: `Some` only on objects. -/
def Json.get : Json → String → Option Json
  | .obj fields, key => Json.lookupField fields key
  | _, _ => none

/-- `Value::as_str`. -/
def Json.asStr : Json → Option String
  | .str s => some s
  | _ => none

/-- `Value::as_array`. -/
def Json.asArr : Json → Option (List Json)
  | .arr items => some items
  | _ => none

/-- `Value::as_object`, exposing the field list. -/
def Json.asObj : Json → Option (List (String × Json))
  | .obj fields => some fields
  | _ => none

/-- The inner loop of `extract_text`'s first two shapes:
`for c in contents { if let Some(text) = c.get("text").and_then(|t| t.as_str())
{ return Some(text) } }` — the first content element whose `"text"` field is a
string wins. -/
def findTextInContents : List Json → Option String
  | [] => none
  | c :: rest =>
    match (Json.get c ("text")).bind Json.asStr with
    | some t => some t
    | none => findTextInContents rest

/-- The outer loop of `extract_text`'s first shape: for each message of the
`"output"` array, if it has a `"content"` array, search that array; otherwise
(or when the search misses) continue with the next message. -/
def findTextInOutputs : List Json → Option String
  | [] => none
  | msg :: rest =>
    match (Json.get msg ("content")).bind Json.asArr with
    | some contents =>
      match findTextInContents contents with
      | some t => some t
      | none => findTextInOutputs rest
    | none => findTextInOutputs rest

/-- Shape 1 of `extract_text`: `"output"` as an array of messages. -/
def extractOutputArray (v : Json) : Option String :=
  ((Json.get v ("output")).bind Json.asArr).bind findTextInOutputs

/-- Shape 2 of `extract_text`: `"output"` as a single object. -/
def extractOutputObject (v : Json) : Option String :=
  ((Json.get v ("output")).bind Json.asObj).bind fun fields =>
    ((Json.lookupField fields ("content")).bind Json.asArr).bind findTextInContents

/-- Shape 3 of `extract_text`: `"output_text"` as a plain string. -/
def extractOutputTextString (v : Json) : Option String :=
  (Json.get v ("output_text")).bind Json.asStr

/-- Shape 4 of `extract_text`: `"output_text"` as an array; join its string
elements with a newline and return the join when it is non-empty. -/
def extractOutputTextArray (v : Json) : Option String :=
  ((Json.get v ("output_text")).bind Json.asArr).bind fun items =>
    let joined := String.intercalate ("\n") (items.filterMap Json.asStr)
    if joined = "" then none else some joined

/-- `extract_text` from src/main.rs: the four response shapes tried in order,
each falling through to the next when it yields nothing. -/
def extract_text (v : Json) : Option String :=
  match extractOutputArray v with
  | some t => some t
  | none =>
    match extractOutputObject v with
    | some t => some t
    | none =>
      match extractOutputTextString v with
      | some t => some t
      | none => extractOutputTextArray v

/-- A content part of the request body (`struct ContentPart`). -/
structure ContentPart where
  part_type : String
  text : String
deriving DecidableEq

/-- A request message (`struct Message`). -/
structure Message where
  role : String
  content : List ContentPart
deriving DecidableEq

/-- The request payload (`struct ResponsesRequest`). -/
structure ResponsesRequest where
  model : String
  input : List Message
deriving DecidableEq

/-- `SYSTEM_PROMPT` from src/main.rs (the Rust line-continuation backslashes
join the fragments with the written trailing spaces kept). -/
def SYSTEM_PROMPT : String :=
  "You translate natural-language requests into a single shell command. Respond with only the runnable command, no explanations, no code fences. Prefer safe quoting for filenames. If the request is impossible, reply with a brief reason."

/-- The request construction at the head of `fetch_command`: a two-message
payload, system prompt first, the user's request second. -/
def build_request (model : String) (user_request : String) : ResponsesRequest :=
  { model := model
    input :=
      [ { role := "system"
          content := [{ part_type := "input_text", text := SYSTEM_PROMPT }] },
        { role := "user"
          content := [{ part_type := "input_text", text := user_request }] } ] }

/-- Outcome of the start of `main`, up to the point where the request would be
sent: the usage bail-out for a blank description, the missing-credential
bail-out, or the built request handed to the transport. -/
inductive PreflightOutcome where
  | usageError : PreflightOutcome
  | missingApiKey : PreflightOutcome
  | sendRequest (req : ResponsesRequest) : PreflightOutcome
deriving DecidableEq

/-- The early control flow of `main`: join the prompt arguments with spaces,
bail out when the trimmed description is empty, then require the API key, then
build the request (the first thing `fetch_command` does before any network
activity). -/
def main_preflight (args : List String) (apiKey : Option String)
    (model : String) : PreflightOutcome :=
  let description := String.intercalate (" ") args
  if rustTrim description = "" then .usageError
  else
    match apiKey with
    | none => .missingApiKey
    | some _ => .sendRequest (build_request model description)

/-- The tail of `fetch_command` after the body has been decoded to JSON:
`extract_text` failing is turned into the fatal "no text output" error whose
message carries the full body text; success sanitizes the raw text. -/
def fetch_command_extract (parsed : Json) (body_text : String) : Except String String :=
  match extract_text parsed with
  | none => .error ("No text output returned from model. Full body: " ++ body_text)
  | some raw => .ok (sanitize_command raw)

/-- What `main` does right after `fetch_command` returns: an extraction error
is fatal; an extracted command is shown and handed to the confirmation gate. -/
inductive PostFetchStep where
  | fatal (msg : String) : PostFetchStep
  | confirmGate (proposed : String) : PostFetchStep
deriving DecidableEq

/-- The step of `main` between decoding the response body and reading the
user's confirmation. -/
def main_post_fetch (parsed : Json) (body_text : String) : PostFetchStep :=
  match fetch_command_extract parsed body_text with
  | .error msg => .fatal msg
  | .ok cmd => .confirmGate cmd

/-- Rust `str::to_lowercase` restricted to the code points that matter here:
ASCII uppercase letters map down by 32. (Full Unicode lowercasing agrees with
this on every code point whose lowercase form could equal a character of
`"y"` or `"yes"`: only `Y`, `E`, `S` lowercase to `y`, `e`, `s`.) -/
def rustToLowerChar (c : Char) : Char :=
  if 'A' ≤ c ∧ c ≤ 'Z' then Char.ofNat (c.toNat + 32) else c

/-- Rust `str::to_lowercase` on a `String`. -/
def rustToLowercase (s : String) : String :=
  ⟨s.data.map rustToLowerChar⟩

/-- The decision logic of `confirm_run` from src/main.rs, applied to the line
read from stdin: `let decision = input.trim().to_lowercase();
decision == "y" || decision == "yes"`. -/
def confirm_decision (input : String) : Bool :=
  let decision := rustToLowercase (rustTrim input)
  decision == "y" || decision == "yes"

/-- The claim C2's reading of the first shape's inner search, written from the
spec's words for comparison with `findTextInOutputs`: for each message with a
`"content"` array, consult only the FIRST element of that array; when it lacks
a string `"text"` field, take nothing from that array's later elements. -/
def findTextInOutputsFirstOnly : List Json → Option String
  | [] => none
  | msg :: rest =>
    match (Json.get msg ("content")).bind Json.asArr with
    | some contents =>
      match contents.head? with
      | some c =>
        match (Json.get c ("text")).bind Json.asStr with
        | some t => some t
        | none => findTextInOutputsFirstOnly rest
      | none => findTextInOutputsFirstOnly rest
    | none => findTextInOutputsFirstOnly rest

/-- `extract_text` as claim C2 describes it: shape 1 with the first-element-only
search, the remaining shapes unchanged. For comparison with `extract_text`. -/
def extract_text_firstOnly (v : Json) : Option String :=
  match ((Json.get v ("output")).bind Json.asArr).bind findTextInOutputsFirstOnly with
  | some t => some t
  | none =>
    match extractOutputObject v with
    | some t => some t
    | none =>
      match extractOutputTextString v with
      | some t => some t
      | none => extractOutputTextArray v

/-! ## List-level lemmas about end-trimming -/

/-- Membership survives `dropWhile` removal. -/
theorem mem_of_mem_dropWhile {α : Type} {p : α → Bool} {a : α} (l : List α)
    (h : a ∈ l.dropWhile p) : a ∈ l := by
  induction l with
  | nil => simp at h
  | cons b t ih =>
    by_cases hb : p b = true
    · rw [List.dropWhile_cons_of_pos hb] at h
      exact List.mem_cons_of_mem b (ih h)
    · rwa [List.dropWhile_cons_of_neg hb] at h

/-- The head surviving a `dropWhile` fails the predicate. -/
theorem head?_dropWhile_false {α : Type} {p : α → Bool} {a : α} (l : List α)
    (h : (l.dropWhile p).head? = some a) : p a = false := by
  induction l with
  | nil => simp at h
  | cons b t ih =>
    by_cases hb : p b = true
    · rw [List.dropWhile_cons_of_pos hb] at h
      exact ih h
    · rw [List.dropWhile_cons_of_neg hb] at h
      simp only [List.head?_cons, Option.some.injEq] at h
      subst h
      simpa using hb

/-- `dropWhile` removes only a prefix, so a surviving last element was the
last element already. -/
theorem getLast?_dropWhile {α : Type} {p : α → Bool} {a : α} (l : List α)
    (h : (l.dropWhile p).getLast? = some a) : l.getLast? = some a := by
  induction l with
  | nil => simp at h
  | cons b t ih =>
    by_cases hb : p b = true
    · rw [List.dropWhile_cons_of_pos hb] at h
      have ht := ih h
      cases t with
      | nil => simp at ht
      | cons c u => rw [List.getLast?_cons_cons]; exact ht
    · rwa [List.dropWhile_cons_of_neg hb] at h

/-- A list whose head fails the predicate is untouched by `dropWhile`. -/
theorem dropWhile_eq_self_of_head {α : Type} {p : α → Bool} (l : List α)
    (h : ∀ a, l.head? = some a → p a = false) : l.dropWhile p = l := by
  cases l with
  | nil => rfl
  | cons b t =>
    have hb := h b rfl
    rw [List.dropWhile_cons_of_neg (by simp [hb])]

/-- The head of an end-trimmed list fails the trimming predicate. -/
theorem head?_trimEnds_false {p : Char → Bool} {a : Char} (l : List Char)
    (h : (trimEnds p l).head? = some a) : p a = false := by
  unfold trimEnds at h
  rw [List.head?_reverse] at h
  have h2 := getLast?_dropWhile _ h
  rw [List.getLast?_reverse] at h2
  exact head?_dropWhile_false _ h2

/-- The last element of an end-trimmed list fails the trimming predicate. -/
theorem getLast?_trimEnds_false {p : Char → Bool} {a : Char} (l : List Char)
    (h : (trimEnds p l).getLast? = some a) : p a = false := by
  unfold trimEnds at h
  rw [List.getLast?_reverse] at h
  exact head?_dropWhile_false _ h

/-- End-trimming does nothing when both ends already fail the predicate. -/
theorem trimEnds_eq_self {p : Char → Bool} (l : List Char)
    (hh : ∀ a, l.head? = some a → p a = false)
    (hl : ∀ a, l.getLast? = some a → p a = false) :
    trimEnds p l = l := by
  unfold trimEnds
  rw [dropWhile_eq_self_of_head l hh]
  rw [dropWhile_eq_self_of_head l.reverse
    (fun a ha => hl a (by rwa [List.head?_reverse] at ha))]
  exact List.reverse_reverse l

/-- End-trimming is idempotent. -/
theorem trimEnds_trimEnds {p : Char → Bool} (l : List Char) :
    trimEnds p (trimEnds p l) = trimEnds p l :=
  trimEnds_eq_self _ (fun _ ha => head?_trimEnds_false _ ha)
    (fun _ ha => getLast?_trimEnds_false _ ha)

/-- Membership survives end-trimming. -/
theorem mem_of_mem_trimEnds {p : Char → Bool} {a : Char} (l : List Char)
    (h : a ∈ trimEnds p l) : a ∈ l := by
  unfold trimEnds at h
  rw [List.mem_reverse] at h
  have h2 := mem_of_mem_dropWhile _ h
  rw [List.mem_reverse] at h2
  exact mem_of_mem_dropWhile _ h2

/-! ## Sanitizer structure lemmas -/

/-- The first line never contains a newline character. -/
theorem newline_not_mem_firstLineList (l : List Char) : '\n' ∉ firstLineList l := by
  unfold firstLineList
  by_cases h : '\n' ∈ l
  · rw [if_pos h]
    intro hmem
    have h2 : '\n' ∈ l.takeWhile (fun c => c ≠ '\n') := by
      unfold stripTrailingCR at hmem
      by_cases hcr : (l.takeWhile (fun c => c ≠ '\n')).getLast? = some '\r'
      · rw [if_pos hcr] at hmem
        exact (List.dropLast_sublist _).mem hmem
      · rwa [if_neg hcr] at hmem
    have h3 := List.mem_takeWhile_imp h2
    simp at h3
  · rw [if_neg h]
    exact h

/-- A list without a newline is its own first line. -/
theorem firstLineList_eq_self {l : List Char} (h : '\n' ∉ l) :
    firstLineList l = l := by
  unfold firstLineList
  rw [if_neg h]

/-- A sanitized command never contains a newline character. -/
theorem newline_not_mem_sanitizeList (l : List Char) : '\n' ∉ sanitizeList l := by
  intro h
  unfold sanitizeList rustTrimList trimMatchesList at h
  exact newline_not_mem_firstLineList l
    (mem_of_mem_trimEnds _ (mem_of_mem_trimEnds _ (mem_of_mem_trimEnds _ h)))

/-- The sanitizer applied to its own output reduces to the final two trims:
the output has no newline and is already whitespace-trimmed. When the output
moreover neither starts nor ends with a backtick, the sanitizer fixes it. -/
theorem sanitizeList_idem (l : List Char)
    (hh : (sanitizeList l).head? ≠ some '`')
    (hl : (sanitizeList l).getLast? ≠ some '`') :
    sanitizeList (sanitizeList l) = sanitizeList l := by
  have hfl : firstLineList (sanitizeList l) = sanitizeList l :=
    firstLineList_eq_self (newline_not_mem_sanitizeList l)
  have h1 : rustTrimList (sanitizeList l) = sanitizeList l := trimEnds_trimEnds _
  have h2 : trimMatchesList ('`') (sanitizeList l) = sanitizeList l := by
    unfold trimMatchesList
    apply trimEnds_eq_self
    · intro a ha
      have hne : a ≠ '`' := fun hc => hh (by rw [← hc]; exact ha)
      simp [hne]
    · intro a ha
      have hne : a ≠ '`' := fun hc => hl (by rw [← hc]; exact ha)
      simp [hne]
  show rustTrimList (trimMatchesList ('`') (rustTrimList (firstLineList (sanitizeList l))))
      = sanitizeList l
  rw [hfl, h1, h2, h1]

/-- A run of characters satisfying the predicate at the front is dropped
wholesale by `dropWhile`. -/
theorem dropWhile_replicate_append {α : Type} (p : α → Bool) (c : α)
    (hc : p c = true) (k : Nat) (rest : List α) :
    (List.replicate k c ++ rest).dropWhile p = rest.dropWhile p := by
  induction k with
  | zero => rw [List.replicate_zero, List.nil_append]
  | succ n ih =>
    rw [List.replicate_succ, List.cons_append, List.dropWhile_cons_of_pos hc]
    exact ih

/-- `trim_matches('`')` strips every layer of a symmetric backtick wrap, down
to the enclosed text, whenever that text itself neither starts nor ends with a
backtick. -/
theorem trimMatchesList_wrap (k : Nat) (s : List Char)
    (hh : s.head? ≠ some '`') (hl : s.getLast? ≠ some '`') :
    trimMatchesList ('`') (List.replicate k '`' ++ (s ++ List.replicate k '`')) = s := by
  unfold trimMatchesList trimEnds
  rw [dropWhile_replicate_append _ _ (by decide) k]
  cases s with
  | nil =>
    rw [List.nil_append]
    have hz : (List.replicate k '`').dropWhile (fun a => a == '`') = ([] : List Char) := by
      have h0 := dropWhile_replicate_append (fun a => a == '`') ('`') (by decide) k
        ([] : List Char)
      rwa [List.append_nil] at h0
    rw [hz]
    rfl
  | cons a t =>
    have hcons : (a :: (t ++ List.replicate k '`')).dropWhile (fun b => b == '`')
        = a :: (t ++ List.replicate k '`') := by
      apply dropWhile_eq_self_of_head
      intro b hb
      simp only [List.head?_cons, Option.some.injEq] at hb
      rw [← hb]
      have hne : a ≠ '`' := fun hc => hh (by rw [hc]; rfl)
      simp [hne]
    rw [List.cons_append, hcons]
    have hrev : (a :: (t ++ List.replicate k '`')).reverse
        = List.replicate k '`' ++ (a :: t).reverse := by
      rw [show a :: (t ++ List.replicate k '`') = (a :: t) ++ List.replicate k '`' from rfl]
      rw [List.reverse_append, List.reverse_replicate]
    rw [hrev, dropWhile_replicate_append (fun b => b == '`') ('`') (by decide) k]
    have hself : ((a :: t).reverse).dropWhile (fun b => b == '`') = (a :: t).reverse := by
      apply dropWhile_eq_self_of_head
      intro b hb
      rw [List.head?_reverse] at hb
      have hne : b ≠ '`' := fun hc => hl (by rw [← hc]; exact hb)
      simp [hne]
    rw [hself]
    exact List.reverse_reverse _

/-! ## Claim theorems: the command sanitizer -/

/-- C1 counterexample: the claim says at most ONE layer of surrounding
backticks is removed, so `sanitize_command` applied to a doubly wrapped
command should keep the inner layer; the code's `trim_matches('`')` strips
every leading and trailing backtick, giving the bare command instead. -/
theorem C1_counterexample :
    sanitize_command ("``ls``") = "ls" ∧ sanitize_command ("``ls``") ≠ "`ls`" := by
  constructor
  · decide
  · decide

/-- C1 (amended): for every input string, `sanitize_command` returns the first
line, trimmed of surrounding whitespace, with ALL surrounding backtick
characters removed, then trimmed of whitespace again. Stated on a symmetric
wrap: every input whose first line is a command wrapped in `k ≥ 1` layers of
backticks (the command itself neither starting nor ending with a backtick)
sanitizes to the trimmed bare command — every layer is removed, not one. -/
theorem C1_amended (k : Nat) (hk : 1 ≤ k) (s : List Char)
    (hn : '\n' ∉ s) (hh : s.head? ≠ some '`') (hl : s.getLast? ≠ some '`') :
    sanitizeList (List.replicate k '`' ++ (s ++ List.replicate k '`'))
      = rustTrimList s := by
  have hnl : '\n' ∉ List.replicate k '`' ++ (s ++ List.replicate k '`') := by
    intro hmem
    rcases List.mem_append.mp hmem with h1 | h2
    · exact absurd (List.eq_of_mem_replicate h1) (by decide)
    · rcases List.mem_append.mp h2 with h3 | h4
      · exact hn h3
      · exact absurd (List.eq_of_mem_replicate h4) (by decide)
  have hhead : (List.replicate k '`' ++ (s ++ List.replicate k '`')).head? = some '`' := by
    cases k with
    | zero => omega
    | succ n => rw [List.replicate_succ, List.cons_append]; rfl
  have hlast : (List.replicate k '`' ++ (s ++ List.replicate k '`')).getLast? = some '`' := by
    rw [← List.head?_reverse, List.reverse_append, List.reverse_append,
      List.reverse_replicate]
    cases k with
    | zero => omega
    | succ n => rw [List.replicate_succ, List.cons_append, List.cons_append]; rfl
  have htrim : rustTrimList (List.replicate k '`' ++ (s ++ List.replicate k '`'))
      = List.replicate k '`' ++ (s ++ List.replicate k '`') := by
    apply trimEnds_eq_self
    · intro a ha
      rw [hhead] at ha
      simp only [Option.some.injEq] at ha
      rw [← ha]
      decide
    · intro a ha
      rw [hlast] at ha
      simp only [Option.some.injEq] at ha
      rw [← ha]
      decide
  unfold sanitizeList
  rw [firstLineList_eq_self hnl, htrim, trimMatchesList_wrap k s hh hl]

/-- Witness for C1 (amended): two layers of backticks around `ls` are both
removed. -/
theorem C1_amended_witness :
    sanitizeList (List.replicate 2 '`' ++ (['l', 's'] ++ List.replicate 2 '`'))
      = rustTrimList ['l', 's'] :=
  C1_amended 2 (by decide) ['l', 's'] (by decide) (by decide) (by decide)

/-- C4 counterexample: sanitization is not idempotent. On the input
consisting of a backtick-wrapped ` `ls` ` (backtick, space, backtick, l, s,
backtick, space, backtick) the first pass strips the outer backticks and the
then-exposed whitespace, leaving a string that is again backtick-wrapped, so
a second pass strips further. -/
theorem C4_counterexample :
    sanitize_command (sanitize_command ("` `ls` `")) ≠ sanitize_command ("` `ls` `") := by
  decide

/-- C4 (amended): sanitization is idempotent on every input whose sanitized
form neither starts nor ends with a backtick character (the counterexample
shows the unconditional claim fails exactly when trimming re-exposes a
backtick at an end). -/
theorem C4_amended (x : String)
    (hh : (sanitize_command x).data.head? ≠ some '`')
    (hl : (sanitize_command x).data.getLast? ≠ some '`') :
    sanitize_command (sanitize_command x) = sanitize_command x :=
  congrArg String.mk (sanitizeList_idem x.data hh hl)

/-- Witness for C4 (amended): a plain command is a fixed point. -/
theorem C4_amended_witness :
    sanitize_command (sanitize_command ("ls")) = sanitize_command ("ls") :=
  C4_amended ("ls") (by decide) (by decide)

/-! ## Claim theorems: the response extractor -/

/-- Mapping strings into JSON strings and filtering them back out is the
identity. -/
theorem filterMap_asStr_map_str (ss : List String) :
    (ss.map Json.str).filterMap Json.asStr = ss := by
  induction ss with
  | nil => rfl
  | cons a t ih => simp [List.filterMap_cons, Json.asStr, ih]

/-- C2 counterexample: on a document whose single output message has a
content list whose FIRST element lacks a string "text" field while its SECOND
element has one, the code returns that second element's text; the claim's
first-element-only reading (embodied by `extract_text_firstOnly`) yields
nothing, so the two disagree. -/
theorem C2_counterexample :
    extract_text (Json.obj [("output", Json.arr [Json.obj [("content",
        Json.arr [Json.obj [], Json.obj [("text", Json.str ("hi"))]])]])]) = some "hi" ∧
    extract_text_firstOnly (Json.obj [("output", Json.arr [Json.obj [("content",
        Json.arr [Json.obj [], Json.obj [("text", Json.str ("hi"))]])]])]) = none ∧
    extract_text (Json.obj [("output", Json.arr [Json.obj [("content",
        Json.arr [Json.obj [], Json.obj [("text", Json.str ("hi"))]])]])]) ≠
      extract_text_firstOnly (Json.obj [("output", Json.arr [Json.obj [("content",
        Json.arr [Json.obj [], Json.obj [("text", Json.str ("hi"))]])]])]) := by
  refine ⟨by decide, by decide, by decide⟩

/-- C2 (amended): for a document whose "output" field is a list,
`extract_text` searches each element's "content" list and returns the text of
the FIRST content element (scanning the whole content list, not only its first
element) whose "text" field is present as a string. -/
theorem C2_amended :
    (∀ contents : List Json, findTextInContents contents =
      (contents.filterMap (fun c => (Json.get c ("text")).bind Json.asStr)).head?) ∧
    (∀ (v : Json) (outputs : List Json) (t : String),
      (Json.get v ("output")).bind Json.asArr = some outputs →
      findTextInOutputs outputs = some t → extract_text v = some t) := by
  constructor
  · intro contents
    induction contents with
    | nil => rfl
    | cons c rest ih =>
      unfold findTextInContents
      cases hc : (Json.get c ("text")).bind Json.asStr with
      | some t => simp [List.filterMap_cons, hc]
      | none => simp [List.filterMap_cons, hc, ih]
  · intro v outputs t h1 h2
    have h3 : extractOutputArray v = some t := by
      unfold extractOutputArray
      rw [h1]
      exact h2
    unfold extract_text
    rw [h3]

/-- Witness for C2 (amended): the document of the counterexample, where the
matching text sits in the second content element. -/
theorem C2_amended_witness :
    extract_text (Json.obj [("output", Json.arr [Json.obj [("content",
        Json.arr [Json.obj [], Json.obj [("text", Json.str ("hi"))]])]])]) = some "hi" :=
  C2_amended.2 _
    [Json.obj [("content", Json.arr [Json.obj [], Json.obj [("text", Json.str ("hi"))]])]]
    "hi" rfl rfl

/-- C3 (confirmed): shape 1 has priority. Whenever the "output" field is a
list in which the loop finds a text, `extract_text` returns that text — in
particular also when the document simultaneously carries a string
"output_text" field (hypothesis `h3`, which the proof never needs: the
priority is unconditional). -/
theorem C3_priority (v : Json) (outputs : List Json) (t s : String)
    (h1 : (Json.get v ("output")).bind Json.asArr = some outputs)
    (h2 : findTextInOutputs outputs = some t)
    (_h3 : (Json.get v ("output_text")).bind Json.asStr = some s) :
    extract_text v = some t := by
  have h4 : extractOutputArray v = some t := by
    unfold extractOutputArray
    rw [h1]
    exact h2
  unfold extract_text
  rw [h4]

/-- Witness for C3: a document with both a valid output list (text `ok`) and
a string output_text (`other`); extraction returns `ok`. -/
theorem C3_priority_witness :
    extract_text (Json.obj [("output", Json.arr [Json.obj [("content",
        Json.arr [Json.obj [("text", Json.str ("ok"))]])]]),
      ("output_text", Json.str ("other"))]) = some "ok" :=
  C3_priority _
    [Json.obj [("content", Json.arr [Json.obj [("text", Json.str ("ok"))]])]]
    "ok" "other" rfl rfl rfl

/-- C5 (confirmed): when the first two shapes yield nothing and "output_text"
holds a list of strings, `extract_text` joins them with a newline and returns
the join whenever it is non-empty; in particular a document carrying only
`output_text: [a, b]` extracts to the two lines `a`, `b`. -/
theorem C5_output_text_list :
    (∀ (v : Json) (ss : List String),
      extractOutputArray v = none →
      extractOutputObject v = none →
      Json.get v ("output_text") = some (Json.arr (ss.map Json.str)) →
      String.intercalate ("\n") ss ≠ "" →
      extract_text v = some (String.intercalate ("\n") ss)) ∧
    extract_text (Json.obj [("output_text", Json.arr [Json.str ("a"), Json.str ("b")])])
      = some ("a\nb") := by
  constructor
  · intro v ss h1 h2 h3 h4
    have hstr : extractOutputTextString v = none := by
      unfold extractOutputTextString
      rw [h3]
      rfl
    have harr : extractOutputTextArray v = some (String.intercalate ("\n") ss) := by
      unfold extractOutputTextArray
      rw [h3]
      show (if String.intercalate ("\n") ((ss.map Json.str).filterMap Json.asStr) = ""
          then none
          else some (String.intercalate ("\n") ((ss.map Json.str).filterMap Json.asStr)))
        = some (String.intercalate ("\n") ss)
      rw [filterMap_asStr_map_str, if_neg h4]
    unfold extract_text
    rw [h1, h2, hstr, harr]
  · decide

/-- Witness for C5: the concrete two-string document. -/
theorem C5_output_text_list_witness :
    extract_text (Json.obj [("output_text", Json.arr [Json.str ("a"), Json.str ("b")])])
      = some (String.intercalate ("\n") ["a", "b"]) :=
  C5_output_text_list.1 _ ["a", "b"] rfl rfl rfl (by decide)

/-! ## Claim theorems: request builder, confirmation gate, control flow -/

/-- C6 (confirmed): for every non-empty (after trimming) space-joined task
description, the request builder produces exactly two messages in order — the
fixed system instruction first, then a user message whose text is the joined
input arguments. -/
theorem C6_request_builder (model : String) (args : List String)
    (_h : rustTrim (String.intercalate (" ") args) ≠ "") :
    (build_request model (String.intercalate (" ") args)).input =
      [ { role := "system"
          content := [{ part_type := "input_text", text := SYSTEM_PROMPT }] },
        { role := "user"
          content := [{ part_type := "input_text"
                        text := String.intercalate (" ") args }] } ] :=
  rfl

/-- Witness for C6: the description `list files`. -/
theorem C6_request_builder_witness :
    rustTrim (String.intercalate (" ") ["list", "files"]) ≠ "" ∧
    (build_request ("gpt-5.1-codex-max") (String.intercalate (" ") ["list", "files"])).input =
      [ { role := "system"
          content := [{ part_type := "input_text", text := SYSTEM_PROMPT }] },
        { role := "user"
          content := [{ part_type := "input_text"
                        text := String.intercalate (" ") ["list", "files"] }] } ] :=
  ⟨by decide, C6_request_builder ("gpt-5.1-codex-max") ["list", "files"] (by decide)⟩

/-- C7 (confirmed): the confirmation gate affirms exactly the inputs whose
trimmed, lowercased form is `y` or `yes`; in particular `Y`, `yes`, `YES`
affirm while the empty line, `n`, `no` and `maybe` decline. -/
theorem C7_confirmation_gate :
    (∀ s : String, confirm_decision s = true ↔
      (rustToLowercase (rustTrim s) = "y" ∨ rustToLowercase (rustTrim s) = "yes")) ∧
    confirm_decision ("Y") = true ∧ confirm_decision ("yes") = true ∧
    confirm_decision ("YES") = true ∧ confirm_decision ("") = false ∧
    confirm_decision ("n") = false ∧ confirm_decision ("no") = false ∧
    confirm_decision ("maybe") = false := by
  refine ⟨fun s => ?_, by decide, by decide, by decide, by decide, by decide,
    by decide, by decide⟩
  unfold confirm_decision
  simp only [Bool.or_eq_true, beq_iff_eq]

/-- C8 (confirmed): when the space-joined task description trims to the empty
string, `main` stops with the usage error; in particular no request value is
ever produced, so nothing reaches the transport. -/
theorem C8_empty_description (args : List String) (apiKey : Option String)
    (model : String)
    (h : rustTrim (String.intercalate (" ") args) = "") :
    main_preflight args apiKey model = .usageError ∧
    ∀ req, main_preflight args apiKey model ≠ .sendRequest req := by
  have hmain : main_preflight args apiKey model = .usageError := by
    unfold main_preflight
    show (if rustTrim (String.intercalate (" ") args) = "" then PreflightOutcome.usageError
        else _) = PreflightOutcome.usageError
    rw [if_pos h]
  exact ⟨hmain, fun req hreq => by rw [hmain] at hreq; cases hreq⟩

/-- Witness for C8: an invocation whose only argument is a blank string. -/
theorem C8_empty_description_witness :
    rustTrim (String.intercalate (" ") [" "]) = "" ∧
    main_preflight [" "] (some ("key")) ("gpt-5.1-codex-max") = .usageError :=
  ⟨by decide, (C8_empty_description [" "] (some ("key")) ("gpt-5.1-codex-max") (by decide)).1⟩

/-- C9 (confirmed): the empty JSON document matches none of the four shapes,
and whenever extraction yields nothing the caller fails with the fatal error
whose message is the fixed prefix followed by the literal response body
text. -/
theorem C9_extraction_failure :
    extract_text (Json.obj []) = none ∧
    ∀ (v : Json) (body_text : String), extract_text v = none →
      fetch_command_extract v body_text =
        .error ("No text output returned from model. Full body: " ++ body_text) := by
  refine ⟨rfl, fun v bt h => ?_⟩
  unfold fetch_command_extract
  rw [h]

/-- Witness for C9: the empty document with its own serialized body text. -/
theorem C9_extraction_failure_witness :
    fetch_command_extract (Json.obj []) ("\x7b\x7d") =
      .error ("No text output returned from model. Full body: " ++ "\x7b\x7d") :=
  C9_extraction_failure.2 (Json.obj []) ("\x7b\x7d") rfl

/-- C10 (confirmed): an empty extracted string counts as text. The document
whose "output_text" is the empty string extracts to `some ""`, the run then
proceeds to the confirmation gate with the empty command, and in general the
"no text output" fatal path is taken exactly when no shape matches. -/
theorem C10_empty_text_extracted :
    extract_text (Json.obj [("output_text", Json.str (""))]) = some "" ∧
    (∀ body_text : String,
      main_post_fetch (Json.obj [("output_text", Json.str (""))]) body_text =
        .confirmGate ("")) ∧
    (∀ (v : Json) (body_text : String),
      (∃ m, main_post_fetch v body_text = .fatal m) ↔ extract_text v = none) := by
  refine ⟨rfl, fun bt => rfl, fun v bt => ?_⟩
  cases h : extract_text v with
  | none =>
    refine iff_of_true ?_ rfl
    refine ⟨"No text output returned from model. Full body: " ++ bt, ?_⟩
    unfold main_post_fetch fetch_command_extract
    rw [h]
  | some raw =>
    refine iff_of_false ?_ (by simp)
    rintro ⟨m, hm⟩
    unfold main_post_fetch fetch_command_extract at hm
    rw [h] at hm
    cases hm
